import Mathlib

/-!
Shallow embedding of the core routines of the population-density-analyzer
repository (src/app/population_density.py, src/database/setup_postgres.py),
together with theorems settling the frozen claims about them.

Strings are manipulated through their character lists; the Python string
primitives used by the source (`str.strip`, `str.split`, `str.replace`,
`re.sub`) are modelled by the `py*` functions below.
-/

namespace PopDensity

/-- Character-level body of Python `str.strip()`: drop whitespace from
both ends. -/
def stripChars (l : List Char) : List Char :=
  ((l.dropWhile Char.isWhitespace).reverse.dropWhile Char.isWhitespace).reverse

/-- Model of Python `str.strip()`.
(The source strips plain ASCII whitespace in all inputs of interest.) -/
def pyStrip (s : String) : String := String.mk (stripChars s.data)

/-- Helper for `pySplit`: accumulate the current word (reversed) while
scanning the characters. -/
def pySplitAux : List Char → List Char → List String
  | [], acc => if acc = [] then [] else [String.mk acc.reverse]
  | c :: cs, acc =>
    if c.isWhitespace then
      (if acc = [] then pySplitAux cs [] else String.mk acc.reverse :: pySplitAux cs [])
    else pySplitAux cs (c :: acc)

/-- Model of Python `str.split()` with no arguments: split on runs of
whitespace, discarding empty pieces. -/
def pySplit (s : String) : List String := pySplitAux s.data []

/-- Model of `re.sub(r"\s+", "", s)`: remove every whitespace character. -/
def stripAllWs (s : String) : String :=
  String.mk (s.data.filter (fun c => ¬ c.isWhitespace))

/-- One parsed LGA record, i.e. the dictionary appended to `records` in
`parse_lga_text` (all fields still raw strings at this stage). -/
structure LgaRecord where
  lga : String
  hasc : String
  state : String
  capital : String
  population : String
  latitude : String
  longitude : String
  areaKm : String
  density : String
deriving DecidableEq, Repr

/-- The body of the `try:` block of `parse_lga_text` at the current cursor
position, given the lines from the cursor onwards. In Python, each
out-of-range index (fewer than 8 lines remaining) and the `hasc_state[0]`
lookup on an empty token list raise, which the `except` turns into a
skipped line; here those raising paths return `none`. -/
def tryBlock : List String → Option LgaRecord
  | l1 :: l2 :: l3 :: l4 :: l5 :: l6 :: l7 :: l8 :: _ =>
    match pySplit l2 with
    | [] => none
    | hasc :: restToks =>
      some { lga := l1
             hasc := hasc
             state := String.intercalate " " restToks
             capital := l3
             population := stripAllWs l4
             latitude := l5
             longitude := l6
             areaKm := l7
             density := l8 }
  | _ => none

/-- The cursor loop of `parse_lga_text`: on success emit the record and
advance the cursor by 8 (drop this line and 7 more); on an exception
advance by 1 (drop just this line). The cursor position `i` into the fixed
line list is represented by the list of lines from `i` onwards. -/
def parseLoop : List String → List LgaRecord
  | [] => []
  | l :: rest =>
    match tryBlock (l :: rest) with
    | some r => r :: parseLoop (rest.drop 7)
    | none => parseLoop rest
termination_by L => L.length
decreasing_by
  · simp only [List.length_cons, List.length_drop]
    omega
  · simp

/-- Model of `parse_lga_text`. The argument is the result of
`raw_text.splitlines()`; the function strips every line, removes the blank
ones, and runs the cursor loop over the remaining lines. -/
def parse_lga_text (raw_lines : List String) : List LgaRecord :=
  parseLoop ((raw_lines.map pyStrip).filter (fun l => l ≠ ""))

/-- One 8-line block of input text, as described by the spec's data model. -/
structure RawBlock where
  l1 : String
  l2 : String
  l3 : String
  l4 : String
  l5 : String
  l6 : String
  l7 : String
  l8 : String
deriving DecidableEq, Repr

/-- The lines of a block, in order. -/
def blockLines (b : RawBlock) : List String :=
  [b.l1, b.l2, b.l3, b.l4, b.l5, b.l6, b.l7, b.l8]

/-- A well-formed input line: already trimmed, and not blank (it contains
at least one non-whitespace character, so `str.split()` yields a token). -/
def wfLine (l : String) : Prop := pyStrip l = l ∧ pySplit l ≠ []

instance (l : String) : Decidable (wfLine l) := by
  unfold wfLine
  infer_instance

/-- A well-formed block: all 8 lines well-formed. -/
def wfBlock (b : RawBlock) : Prop := ∀ l ∈ blockLines b, wfLine l

instance (b : RawBlock) : Decidable (wfBlock b) := by
  unfold wfBlock
  infer_instance

/-- The record a well-formed block describes, per the spec: LGA from line 1,
HASC the first token and state the space-join of the remaining tokens of
line 2, capital from line 3, population from line 4 with internal
whitespace stripped, and latitude, longitude, area, density from lines
5 to 8. -/
def recordOfBlock (b : RawBlock) : LgaRecord :=
  { lga := b.l1
    hasc := (pySplit b.l2).headD ""
    state := String.intercalate " " (pySplit b.l2).tail
    capital := b.l3
    population := stripAllWs b.l4
    latitude := b.l5
    longitude := b.l6
    areaKm := b.l7
    density := b.l8 }

/-- Concatenation of the lines of a list of blocks. -/
def linesOfBlocks : List RawBlock → List String
  | [] => []
  | b :: bs => blockLines b ++ linesOfBlocks bs

lemma pySplit_nil : pySplit "" = [] := rfl

lemma wfLine.ne_empty {l : String} (h : wfLine l) : l ≠ "" := by
  intro hl
  exact h.2 (hl ▸ pySplit_nil)

lemma length_linesOfBlocks (bs : List RawBlock) :
    (linesOfBlocks bs).length = 8 * bs.length := by
  induction bs with
  | nil => rfl
  | cons b bs ih =>
    simp [linesOfBlocks, blockLines, ih]
    ring

/-- Stripping and blank-filtering is the identity on well-formed lines. -/
lemma filter_map_strip_eq {L : List String} (h : ∀ l ∈ L, wfLine l) :
    (L.map pyStrip).filter (fun l => l ≠ "") = L := by
  induction L with
  | nil => rfl
  | cons l ls ih =>
    have hl := h l (List.mem_cons_self l ls)
    have hne : l ≠ "" := hl.ne_empty
    simp only [List.map_cons, List.filter_cons, hl.1]
    rw [if_pos (by simpa using hne)]
    rw [ih (fun x hx => h x (List.mem_cons_of_mem _ hx))]

lemma wfLines_of_wfBlocks {bs : List RawBlock} (h : ∀ b ∈ bs, wfBlock b) :
    ∀ l ∈ linesOfBlocks bs, wfLine l := by
  induction bs with
  | nil => intro l hl; cases hl
  | cons b bs ih =>
    intro l hl
    rcases List.mem_append.mp hl with hl | hl
    · exact h b (List.mem_cons_self b bs) l hl
    · exact ih (fun x hx => h x (List.mem_cons_of_mem _ hx)) l hl

/-- A list with fewer than 8 elements makes every field-extraction attempt
raise (the `_` fallback of `tryBlock`). -/
lemma tryBlock_short {L : List String} (h : L.length < 8) : tryBlock L = none := by
  rcases L with _ | ⟨a1, _ | ⟨a2, _ | ⟨a3, _ | ⟨a4, _ | ⟨a5, _ | ⟨a6, _ | ⟨a7, _ | ⟨a8, t⟩⟩⟩⟩⟩⟩⟩⟩ <;>
    first
      | rfl
      | (exfalso; simp only [List.length_cons] at h; omega)

lemma exists_eight_of_le_length {L : List String} (h : 8 ≤ L.length) :
    ∃ a1 a2 a3 a4 a5 a6 a7 a8 t,
      L = a1 :: a2 :: a3 :: a4 :: a5 :: a6 :: a7 :: a8 :: t := by
  rcases L with _ | ⟨a1, L⟩
  · simp only [List.length_nil] at h; omega
  rcases L with _ | ⟨a2, L⟩
  · simp only [List.length_cons, List.length_nil] at h; omega
  rcases L with _ | ⟨a3, L⟩
  · simp only [List.length_cons, List.length_nil] at h; omega
  rcases L with _ | ⟨a4, L⟩
  · simp only [List.length_cons, List.length_nil] at h; omega
  rcases L with _ | ⟨a5, L⟩
  · simp only [List.length_cons, List.length_nil] at h; omega
  rcases L with _ | ⟨a6, L⟩
  · simp only [List.length_cons, List.length_nil] at h; omega
  rcases L with _ | ⟨a7, L⟩
  · simp only [List.length_cons, List.length_nil] at h; omega
  rcases L with _ | ⟨a8, L⟩
  · simp only [List.length_cons, List.length_nil] at h; omega
  exact ⟨a1, a2, a3, a4, a5, a6, a7, a8, L, rfl⟩

/-- With at least 8 lines available and a tokenizable second line, the
field extraction succeeds and produces exactly the record the spec
describes for the leading block. -/
lemma tryBlock_block (b : RawBlock) (rest : List String)
    (h2 : pySplit b.l2 ≠ []) :
    tryBlock (blockLines b ++ rest) = some (recordOfBlock b) := by
  obtain ⟨t, ts, hts⟩ := List.exists_cons_of_ne_nil h2
  simp [blockLines, tryBlock, hts, recordOfBlock]

lemma parseLoop_nil : parseLoop [] = [] := by simp [parseLoop]

/-- Success case of the cursor loop: the leading 8 lines form a block, the
record is emitted, and the cursor advances by 8. -/
lemma parseLoop_block (b : RawBlock) (rest : List String)
    (h2 : pySplit b.l2 ≠ []) :
    parseLoop (blockLines b ++ rest) = recordOfBlock b :: parseLoop rest := by
  have h := tryBlock_block b rest h2
  simp only [blockLines, List.cons_append, List.nil_append] at h ⊢
  rw [parseLoop, h]
  simp [List.drop]

/-- Fewer than 8 lines: every attempt raises, the cursor advances one line
at a time, and no record is ever produced. -/
lemma parseLoop_short {L : List String} (h : L.length < 8) : parseLoop L = [] := by
  induction L with
  | nil => exact parseLoop_nil
  | cons l rest ih =>
    rw [parseLoop, tryBlock_short h]
    exact ih (by simp at h ⊢; omega)

/-- Record count of the cursor loop over non-blank lines: one record per
8 lines, rounding down. -/
lemma parseLoop_length {L : List String} (h : ∀ l ∈ L, pySplit l ≠ []) :
    (parseLoop L).length = L.length / 8 := by
  induction L using parseLoop.induct with
  | case1 => simp [parseLoop_nil]
  | case2 l rest r hsome ih =>
    have hlen : 8 ≤ (l :: rest).length := by
      by_contra hc
      rw [tryBlock_short (by omega)] at hsome
      exact Option.noConfusion hsome
    rw [parseLoop, hsome]
    have ih' := ih (fun x hx => h x (List.mem_cons_of_mem _ (List.mem_of_mem_drop hx)))
    simp only [List.length_cons, ih', List.length_drop]
    simp only [List.length_cons] at hlen
    omega
  | case3 l rest hnone ih =>
    have hshort : (l :: rest).length < 8 := by
      by_contra hc
      obtain ⟨a1, a2, a3, a4, a5, a6, a7, a8, t, hL⟩ :=
        exists_eight_of_le_length (L := l :: rest) (by omega)
      have h2 : pySplit a2 ≠ [] := by
        apply h
        rw [hL]
        simp
      rw [hL] at hnone
      obtain ⟨u, us, hus⟩ := List.exists_cons_of_ne_nil h2
      simp [tryBlock, hus] at hnone
    rw [parseLoop, hnone]
    have ih' := ih (fun x hx => h x (List.mem_cons_of_mem _ hx))
    rw [ih']
    simp only [List.length_cons] at hshort ⊢
    omega

/-- C1: on an input that is exactly a sequence of well-formed 8-line blocks
with no blank lines, `parse_lga_text` returns one record per block, in
input order, with every field extracted as the spec describes (LGA from
line 1, HASC and state from the tokens of line 2, capital from line 3,
population from line 4 with internal whitespace stripped, latitude,
longitude, area and density from lines 5-8). -/
theorem parse_lga_text_wellformed (bs : List RawBlock)
    (h : ∀ b ∈ bs, wfBlock b) :
    parse_lga_text (linesOfBlocks bs) = bs.map recordOfBlock := by
  unfold parse_lga_text
  rw [filter_map_strip_eq (wfLines_of_wfBlocks h)]
  induction bs with
  | nil => exact parseLoop_nil
  | cons b bs ih =>
    have hwf : wfBlock b := h b (List.mem_cons_self b bs)
    have h2 : pySplit b.l2 ≠ [] := (hwf b.l2 (by simp [blockLines])).2
    show parseLoop (blockLines b ++ linesOfBlocks bs) = _
    rw [parseLoop_block b _ h2, ih (fun x hx => h x (List.mem_cons_of_mem _ hx))]
    rfl

/-- A sample well-formed 8-line block. -/
def sampleBlock1 : RawBlock :=
  ⟨"Aba North", "AB.AN Abia", "Aba", "155 600", "5.106", "7.366", "72", "2161"⟩

/-- A second sample well-formed 8-line block. -/
def sampleBlock2 : RawBlock :=
  ⟨"Aba South", "AB.AS Abia", "Aba", "291 700", "5.106", "7.35", "49", "5953"⟩

/-- A sample block whose second line holds a single token (HASC code with
no state name after it). -/
def sampleBlock3 : RawBlock :=
  ⟨"Lagos Island", "LA.IS", "Lagos", "212 700", "6.45", "3.40", "9", "23633"⟩

/-- Witness for `parse_lga_text_wellformed` at two concrete blocks. -/
theorem parse_lga_text_wellformed_witness :
    parse_lga_text (linesOfBlocks [sampleBlock1, sampleBlock2])
      = [recordOfBlock sampleBlock1, recordOfBlock sampleBlock2] :=
  parse_lga_text_wellformed [sampleBlock1, sampleBlock2] (by decide)

/-- C2: recovery behaviour of the parser. (i) Whenever the field
extraction at the cursor raises, the loop continues on the lines after
dropping exactly 1 line (not 8). (ii) Consequently, on well-formed blocks
`A`, then a malformed block `M` of fewer than 8 non-blank lines, then
well-formed blocks `B`, the parser still emits one record per block of `A`
and per block of `B` (the blocks after the malformed one are not
discarded, though the records covering the affected lines shift).
(iii) Empty input yields zero records, and (iv) entirely malformed input
(fewer than 8 non-blank lines in total) yields zero records; no exception
escapes in any case. -/
theorem parse_lga_text_resync :
    (∀ rem : List String, tryBlock rem = none →
        parseLoop rem = parseLoop (rem.drop 1))
    ∧ (∀ (A B : List RawBlock) (M : List String),
        (∀ b ∈ A, wfBlock b) → (∀ b ∈ B, wfBlock b) →
        (∀ l ∈ M, wfLine l) → 0 < M.length → M.length < 8 →
        (parse_lga_text (linesOfBlocks A ++ M ++ linesOfBlocks B)).length
          = A.length + B.length)
    ∧ parse_lga_text [] = []
    ∧ (∀ raw_lines : List String,
        ((raw_lines.map pyStrip).filter (fun l => l ≠ "")).length < 8 →
        parse_lga_text raw_lines = []) := by
  refine ⟨?_, ?_, ?_, ?_⟩
  · intro rem h
    cases rem with
    | nil => simp
    | cons l rest => rw [parseLoop, h]; simp
  · intro A B M hA hB hM hpos hlt
    unfold parse_lga_text
    have hwf : ∀ l ∈ linesOfBlocks A ++ M ++ linesOfBlocks B, wfLine l := by
      intro l hl
      rcases List.mem_append.mp hl with hl | hl
      · rcases List.mem_append.mp hl with hl | hl
        · exact wfLines_of_wfBlocks hA l hl
        · exact hM l hl
      · exact wfLines_of_wfBlocks hB l hl
    rw [filter_map_strip_eq hwf]
    rw [parseLoop_length (fun l hl => (hwf l hl).2)]
    simp only [List.length_append, length_linesOfBlocks]
    omega
  · exact parseLoop_nil
  · intro raw_lines h
    exact parseLoop_short h

/-- Witness for `parse_lga_text_resync`: dropping one line on a failed
extraction, and a concrete malformed 2-line block between two well-formed
blocks still yielding one record per well-formed block. -/
theorem parse_lga_text_resync_witness :
    parseLoop ["orphan line"] = parseLoop (["orphan line"].drop 1)
    ∧ (parse_lga_text (linesOfBlocks [sampleBlock1]
        ++ ["Bad Block", "XX.YY"] ++ linesOfBlocks [sampleBlock2])).length
        = 1 + 1 := by
  constructor
  · exact parse_lga_text_resync.1 ["orphan line"] (by decide)
  · exact parse_lga_text_resync.2.1 [sampleBlock1] [sampleBlock2]
      ["Bad Block", "XX.YY"] (by decide) (by decide) (by decide)
      (by decide) (by decide)

/-- C10: a block whose second line holds exactly one token is not treated
as malformed: the parser emits a record whose HASC field is that token and
whose state field is the empty string. -/
theorem parse_lga_text_single_token (b : RawBlock) (t : String)
    (hwf : wfBlock b) (h2 : pySplit b.l2 = [t]) :
    parse_lga_text (blockLines b) = [recordOfBlock b]
    ∧ (recordOfBlock b).hasc = t ∧ (recordOfBlock b).state = "" := by
  refine ⟨?_, ?_, ?_⟩
  · unfold parse_lga_text
    rw [filter_map_strip_eq hwf]
    have happ : blockLines b = blockLines b ++ [] := by simp
    rw [happ, parseLoop_block b [] (by rw [h2]; simp), parseLoop_nil]
  · simp [recordOfBlock, h2]
  · simp [recordOfBlock, h2]
    rfl

/-- Witness for `parse_lga_text_single_token` at a concrete block with a
one-token second line. -/
theorem parse_lga_text_single_token_witness :
    parse_lga_text (blockLines sampleBlock3) = [recordOfBlock sampleBlock3]
    ∧ (recordOfBlock sampleBlock3).hasc = "LA.IS"
    ∧ (recordOfBlock sampleBlock3).state = "" :=
  parse_lga_text_single_token sampleBlock3 "LA.IS" (by decide) (by decide)

/-!
Embedding of `clean_lga_data`. A pandas `DataFrame` is modelled as an
ordered list of named columns of cells. A cell is a string (the state in
which both `parse_lga_text` output and `read_csv(dtype=str)` input
arrive), a float, or NaN. A float produced by `pd.to_numeric` is an exact
decimal, modelled as `num m e` for the value `m / 10 ^ e`; NaN doubles as
the missing-value marker `errors="coerce"` substitutes.
-/

/-- One cell of a data frame. -/
inductive Cell where
  | str : String → Cell
  | num : Int → Nat → Cell
  | nan : Cell
deriving DecidableEq, Repr

/-- A data frame: named columns of cells. -/
structure Table where
  cols : List (String × List Cell)
deriving DecidableEq, Repr

/-- Digit character for a value below 10. -/
def digitChar : Nat → Char
  | 0 => '0' | 1 => '1' | 2 => '2' | 3 => '3' | 4 => '4'
  | 5 => '5' | 6 => '6' | 7 => '7' | 8 => '8' | _ => '9'

/-- Numeric value of a digit character. -/
def digVal (c : Char) : Nat := c.toNat - 48

/-- Value of a digit string read left to right. -/
def digitsVal (cs : List Char) : Nat := cs.foldl (fun a c => 10 * a + digVal c) 0

/-- Decimal digits of a natural number, most significant first. -/
def natToDigits (n : Nat) : List Char :=
  if h : n < 10 then [digitChar n]
  else natToDigits (n / 10) ++ [digitChar (n % 10)]
termination_by n
decreasing_by exact Nat.div_lt_self (by omega) (by omega)

/-- Model of Python `str(float)` on the exact decimal `m / 10 ^ e`: sign,
integer digits, a decimal point, and the fraction digits (a single `0`
when the value is integral, as Python prints `155600.0`). -/
def printNum (m : Int) (e : Nat) : String :=
  let ds := natToDigits m.natAbs
  let ds := if ds.length < e + 1 then List.replicate (e + 1 - ds.length) '0' ++ ds else ds
  let ip := ds.take (ds.length - e)
  let fp := if e = 0 then ['0'] else ds.drop (ds.length - e)
  String.mk ((if m < 0 then ['-'] else []) ++ ip ++ '.' :: fp)

/-- String form of a cell, modelling `astype(str)`: strings unchanged,
floats printed, NaN printed as "nan". -/
def cellStr : Cell → String
  | .str s => s
  | .num m e => printNum m e
  | .nan => "nan"

/-- Strip a leading sign from a numeric literal. -/
def stripSign : List Char → Bool × List Char
  | [] => (false, [])
  | c :: cs =>
    if c = '-' then (true, cs)
    else if c = '+' then (false, cs)
    else (false, c :: cs)

/-- Mantissa of a numeric literal: integer digits, optionally a point and
fraction digits, with at least one digit overall. Returns the combined
digit value, the number of fraction digits, and the unconsumed rest. -/
def parseMantissa (cs : List Char) : Option (Nat × Nat × List Char) :=
  let ip := cs.takeWhile Char.isDigit
  let rest := cs.dropWhile Char.isDigit
  match rest with
  | '.' :: rest2 =>
    let fp := rest2.takeWhile Char.isDigit
    let rest3 := rest2.dropWhile Char.isDigit
    if ip.isEmpty ∧ fp.isEmpty then none
    else some (digitsVal (ip ++ fp), fp.length, rest3)
  | _ => if ip.isEmpty then none else some (digitsVal ip, 0, rest)

/-- A run of digits with an optional sign, as an integer. -/
def parseSignedDigits : List Char → Option Int
  | [] => none
  | c :: ds =>
    if c = '-' then
      (if ds ≠ [] ∧ ds.all Char.isDigit then some (-(digitsVal ds : Int)) else none)
    else if c = '+' then
      (if ds ≠ [] ∧ ds.all Char.isDigit then some ((digitsVal ds : Int)) else none)
    else
      (if (c :: ds).all Char.isDigit then some ((digitsVal (c :: ds) : Int)) else none)

/-- Exponent suffix of a numeric literal: nothing, or `e`/`E` followed by
a signed digit run. -/
def parseExpPart : List Char → Option Int
  | [] => some 0
  | c :: rest =>
    if c = 'e' ∨ c = 'E' then parseSignedDigits rest else none

/-- Normalize the decimal encoding `m / 10 ^ e` by cancelling trailing
factors of 10, so that `e = 0` or `m` is not divisible by 10. -/
def normNum (m : Int) : Nat → Int × Nat
  | 0 => (m, 0)
  | e + 1 => if m % 10 = 0 then normNum (m / 10) e else (m, e + 1)

/-- Model of the numeric-literal parsing inside `pd.to_numeric`: sign,
mantissa with optional fraction, optional exponent; anything else fails. -/
def parseFloat (s : String) : Option (Int × Nat) :=
  match stripSign s.data with
  | (neg, cs) =>
    match parseMantissa cs with
    | none => none
    | some (m, e, rest) =>
      match parseExpPart rest with
      | none => none
      | some k =>
        let mz : Int := if neg then -(m : Int) else (m : Int)
        if k ≥ 0 then some (normNum (mz * (10 : Int) ^ k.toNat) e)
        else some (normNum mz (e + (-k).toNat))

/-- Model of `pd.to_numeric(·, errors="coerce")` on one cell's string: a
parsed decimal, or NaN (the missing marker) when parsing fails. -/
def toNumericCell (s : String) : Cell :=
  match parseFloat s with
  | some (m, e) => Cell.num m e
  | none => Cell.nan

/-- Column-name cleaning pipeline of `clean_lga_data`, in source order:
strip surrounding whitespace, remove the BOM code point, remove the
mis-decoded 3-character BOM form, remove parentheses, replace spaces with
underscores, lowercase. -/
def removeBom3 : List Char → List Char
  | 'ï' :: '»' :: '¿' :: rest => removeBom3 rest
  | c :: rest => c :: removeBom3 rest
  | [] => []

/-- The full column-name cleaning chain applied to one column name. -/
def cleanColumn (s : String) : String :=
  String.mk
    ((((removeBom3 (((pyStrip s).data.filter (fun c => c ≠ '\uFEFF')))).filter
        (fun c => c ≠ '(' ∧ c ≠ ')')).map
      (fun c => if c = ' ' then '_' else c)).map Char.toLower)

/-- The designated string columns of `clean_lga_data`. -/
def string_cols : List String := ["lga", "hasc", "state", "capital"]

/-- The designated numeric columns of `clean_lga_data`. -/
def numeric_cols : List String :=
  ["population", "latitude", "longitude", "areakm", "area_km", "density"]

/-- String-column cleaning: `astype(str).str.strip()` on one cell. -/
def cleanStrCell (c : Cell) : Cell := Cell.str (pyStrip (cellStr c))

/-- Numeric-column string preparation: `astype(str).str.strip()`, then
remove spaces, then remove commas. -/
def cleanNumStr (s : String) : String :=
  String.mk (((pyStrip s).data.filter (fun c => c ≠ ' ')).filter (fun c => c ≠ ','))

/-- Numeric-column coercion on one cell. -/
def coerceCell (c : Cell) : Cell := toNumericCell (cleanNumStr (cellStr c))

/-- Per-column action of `clean_lga_data`: clean the column name, then
coerce the designated string columns and the designated numeric columns
(the two lists are disjoint, so the two source loops act on disjoint
columns and commute into one pass); all other columns keep their values. -/
def cleanColPair (p : String × List Cell) : String × List Cell :=
  let n := cleanColumn p.1
  if n ∈ string_cols then (n, p.2.map cleanStrCell)
  else if n ∈ numeric_cols then (n, p.2.map coerceCell)
  else (n, p.2)

/-- Model of `clean_lga_data`: the per-column action applied to every
column of the frame. -/
def clean_lga_data (t : Table) : Table := ⟨t.cols.map cleanColPair⟩

lemma not_string_col_of_numeric {n : String} (h : n ∈ numeric_cols) :
    n ∉ string_cols := by
  fin_cases h <;> decide

/-- C3: `clean_lga_data` rewrites every column name with the fixed
pipeline (strip, remove the BOM code point and the mis-decoded 3-character
BOM form, remove parentheses, spaces to underscores, lowercase); in
particular " Area (Km) " normalizes to "area_km" and a leading BOM is
stripped before lowercasing. -/
theorem clean_lga_data_columns :
    (∀ t : Table,
        (clean_lga_data t).cols.map Prod.fst = t.cols.map (fun p => cleanColumn p.1))
    ∧ cleanColumn " Area (Km) " = "area_km"
    ∧ cleanColumn "\uFEFFPopulation" = "population" := by
  refine ⟨?_, by decide, by decide⟩
  intro t
  unfold clean_lga_data
  simp only [List.map_map]
  apply List.map_congr_left
  intro p _
  simp only [Function.comp_apply]
  by_cases h1 : cleanColumn p.1 ∈ string_cols
  · simp [cleanColPair, h1]
  by_cases h2 : cleanColumn p.1 ∈ numeric_cols
  · simp [cleanColPair, h1, h2]
  · simp [cleanColPair, h1, h2]

/-- C4: every designated numeric column present (under its cleaned name)
is coerced cell-wise by converting to text, trimming, dropping spaces and
commas, and parsing a decimal; an unparseable value becomes the missing
marker (NaN), never an error — in particular "155 600" coerces to 155600,
"12,345.6" to 12345.6, and "abc" to the missing marker — and every
coercion result is a number or the missing marker (no exception path). -/
theorem clean_lga_data_numeric_coercion :
    (∀ (t : Table) (n : String) (vs : List Cell), (n, vs) ∈ t.cols →
        cleanColumn n ∈ numeric_cols →
        (cleanColumn n, vs.map coerceCell) ∈ (clean_lga_data t).cols)
    ∧ coerceCell (Cell.str "155 600") = Cell.num 155600 0
    ∧ coerceCell (Cell.str "12,345.6") = Cell.num 123456 1
    ∧ coerceCell (Cell.str "abc") = Cell.nan
    ∧ (∀ c : Cell, coerceCell c = Cell.nan ∨ ∃ m e, coerceCell c = Cell.num m e) := by
  refine ⟨?_, by decide, by decide, by decide, ?_⟩
  · intro t n vs hmem hnum
    unfold clean_lga_data
    have himg := List.mem_map_of_mem (f := cleanColPair) hmem
    simpa [cleanColPair, not_string_col_of_numeric hnum, hnum] using himg
  · intro c
    unfold coerceCell toNumericCell
    cases h : parseFloat (cleanNumStr (cellStr c)) with
    | none => exact Or.inl rfl
    | some p => exact Or.inr ⟨p.1, p.2, rfl⟩

/-- Witness for `clean_lga_data_numeric_coercion` at a concrete one-column
table. -/
theorem clean_lga_data_numeric_coercion_witness :
    (cleanColumn "Population", [Cell.str "155 600"].map coerceCell)
      ∈ (clean_lga_data ⟨[("Population", [Cell.str "155 600"])]⟩).cols :=
  clean_lga_data_numeric_coercion.1 ⟨[("Population", [Cell.str "155 600"])]⟩
    "Population" [Cell.str "155 600"] (by decide) (by decide)

/-!
Support lemmas for the idempotence analysis of `clean_lga_data`:
properties of `stripChars`, of decimal digit strings, and a print/parse
round trip for the exact decimals produced by the numeric coercion.
-/

lemma dropWhile_idem (p : Char → Bool) (l : List Char) :
    (l.dropWhile p).dropWhile p = l.dropWhile p := by
  induction l with
  | nil => rfl
  | cons c cs ih => by_cases h : p c <;> simp [List.dropWhile_cons, h, ih]

lemma length_dropWhile_le (p : Char → Bool) (l : List Char) :
    (l.dropWhile p).length ≤ l.length := by
  induction l with
  | nil => simp
  | cons c cs ih => by_cases h : p c <;> simp [List.dropWhile_cons, h] <;> omega

lemma head_not_of_dropWhile_eq_self {p : Char → Bool} {c : Char} {t : List Char}
    (h : (c :: t).dropWhile p = c :: t) : p c = false := by
  cases hc : p c with
  | false => rfl
  | true =>
    rw [List.dropWhile_cons, if_pos hc] at h
    have h1 := length_dropWhile_le p t
    have h2 := congrArg List.length h
    simp only [List.length_cons] at h2
    omega

lemma dropWhile_eq_self_append {p : Char → Bool} {r u : List Char}
    (hl : (r ++ u).dropWhile p = r ++ u) : r.dropWhile p = r := by
  cases r with
  | nil => rfl
  | cons c t =>
    have hc : p c = false := by
      apply head_not_of_dropWhile_eq_self (t := t ++ u)
      simpa using hl
    simp [List.dropWhile_cons, hc]

lemma dropWhile_eq_self_of_all {p : Char → Bool} {l : List Char}
    (h : ∀ c ∈ l, p c = false) : l.dropWhile p = l := by
  cases l with
  | nil => rfl
  | cons c t => simp [List.dropWhile_cons, h c (List.mem_cons_self c t)]

lemma stripChars_idem (l : List Char) : stripChars (stripChars l) = stripChars l := by
  unfold stripChars
  set d := l.dropWhile Char.isWhitespace with hd
  set b := d.reverse.dropWhile Char.isWhitespace with hb
  have hdd : d.dropWhile Char.isWhitespace = d := by
    rw [hd]; exact dropWhile_idem _ _
  have hbb : b.dropWhile Char.isWhitespace = b := by
    rw [hb]; exact dropWhile_idem _ _
  have hsplit : d.reverse.takeWhile Char.isWhitespace ++ b = d.reverse :=
    List.takeWhile_append_dropWhile Char.isWhitespace d.reverse
  have hd2 : b.reverse ++ (d.reverse.takeWhile Char.isWhitespace).reverse = d := by
    have h := congrArg List.reverse hsplit
    simpa [List.reverse_append] using h
  have hr : b.reverse.dropWhile Char.isWhitespace = b.reverse := by
    apply dropWhile_eq_self_append (u := (d.reverse.takeWhile Char.isWhitespace).reverse)
    rw [hd2]
    exact hdd
  rw [hr, List.reverse_reverse, hbb]

lemma pyStrip_idem (s : String) : pyStrip (pyStrip s) = pyStrip s := by
  unfold pyStrip
  exact congrArg String.mk (stripChars_idem s.data)

lemma stripChars_of_no_ws {l : List Char}
    (h : ∀ c ∈ l, c.isWhitespace = false) : stripChars l = l := by
  unfold stripChars
  rw [dropWhile_eq_self_of_all h]
  rw [dropWhile_eq_self_of_all (fun c hc => h c (List.mem_reverse.mp hc))]
  exact List.reverse_reverse l

lemma digVal_digitChar {d : Nat} (h : d < 10) : digVal (digitChar d) = d := by
  interval_cases d <;> decide

lemma isDigit_digitChar {d : Nat} (h : d < 10) : (digitChar d).isDigit = true := by
  interval_cases d <;> decide

lemma natToDigits_ne_nil (n : Nat) : natToDigits n ≠ [] := by
  unfold natToDigits
  split
  · simp
  · simp

lemma digitsVal_snoc (xs : List Char) (c : Char) :
    digitsVal (xs ++ [c]) = 10 * digitsVal xs + digVal c := by
  simp [digitsVal, List.foldl_append]

lemma digitsVal_natToDigits (n : Nat) : digitsVal (natToDigits n) = n := by
  induction n using natToDigits.induct with
  | case1 n h =>
    rw [natToDigits, dif_pos h]
    simp [digitsVal, digVal_digitChar h]
  | case2 n h ih =>
    rw [natToDigits, dif_neg h]
    rw [digitsVal_snoc, ih, digVal_digitChar (Nat.mod_lt n (by omega))]
    omega

lemma all_digit_natToDigits (n : Nat) : ∀ c ∈ natToDigits n, c.isDigit = true := by
  induction n using natToDigits.induct with
  | case1 n h =>
    rw [natToDigits, dif_pos h]
    intro c hc
    simp only [List.mem_singleton] at hc
    subst hc
    exact isDigit_digitChar h
  | case2 n h ih =>
    rw [natToDigits, dif_neg h]
    intro c hc
    rcases List.mem_append.mp hc with hc | hc
    · exact ih c hc
    · simp only [List.mem_singleton] at hc
      subst hc
      exact isDigit_digitChar (Nat.mod_lt n (by omega))

lemma foldl_digits_replicate_zero (k : Nat) :
    (List.replicate k '0').foldl (fun a c => 10 * a + digVal c) 0 = 0 := by
  induction k with
  | zero => rfl
  | succ k ih => simpa [List.replicate_succ, digVal] using ih

lemma digitsVal_replicate_zero_append (k : Nat) (ds : List Char) :
    digitsVal (List.replicate k '0' ++ ds) = digitsVal ds := by
  unfold digitsVal
  rw [List.foldl_append, foldl_digits_replicate_zero]

lemma takeWhile_append_cons {p : Char → Bool} {xs : List Char}
    (hxs : ∀ c ∈ xs, p c = true) {y : Char} (hy : p y = false) (ys : List Char) :
    (xs ++ y :: ys).takeWhile p = xs ∧ (xs ++ y :: ys).dropWhile p = y :: ys := by
  induction xs with
  | nil => simp [List.takeWhile_cons, List.dropWhile_cons, hy]
  | cons x xs ih =>
    have hx : p x = true := hxs x (List.mem_cons_self x xs)
    have ih' := ih (fun c hc => hxs c (List.mem_cons_of_mem _ hc))
    simp [List.takeWhile_cons, List.dropWhile_cons, hx, ih'.1, ih'.2]

lemma takeWhile_all {p : Char → Bool} {xs : List Char}
    (hxs : ∀ c ∈ xs, p c = true) :
    xs.takeWhile p = xs ∧ xs.dropWhile p = [] := by
  induction xs with
  | nil => simp
  | cons x xs ih =>
    have hx : p x = true := hxs x (List.mem_cons_self x xs)
    have ih' := ih (fun c hc => hxs c (List.mem_cons_of_mem _ hc))
    simp [List.takeWhile_cons, List.dropWhile_cons, hx, ih'.1, ih'.2]

lemma ne_of_digit {c : Char} (h : c.isDigit = true) :
    c ≠ '-' ∧ c ≠ '+' ∧ c ≠ ' ' ∧ c ≠ ',' := by
  refine ⟨?_, ?_, ?_, ?_⟩ <;> (rintro rfl; exact absurd h (by decide))

lemma not_ws_of_digit {c : Char} (h : c.isDigit = true) :
    c.isWhitespace = false := by
  have h1 : c ≠ ' ' := by rintro rfl; exact absurd h (by decide)
  have h2 : c ≠ '\t' := by rintro rfl; exact absurd h (by decide)
  have h3 : c ≠ '\r' := by rintro rfl; exact absurd h (by decide)
  have h4 : c ≠ '\n' := by rintro rfl; exact absurd h (by decide)
  simp [Char.isWhitespace, h1, h2, h3, h4]

lemma parseMantissa_print {ip fp : List Char}
    (hip : ∀ c ∈ ip, c.isDigit = true)
    (hfp : ∀ c ∈ fp, c.isDigit = true) (hne : ip ≠ []) :
    parseMantissa (ip ++ '.' :: fp) = some (digitsVal (ip ++ fp), fp.length, []) := by
  have hdot : Char.isDigit '.' = false := by decide
  have h1 := takeWhile_append_cons hip hdot fp
  have h2 := takeWhile_all hfp
  unfold parseMantissa
  rw [h1.1, h1.2]
  simp only [h2.1, h2.2]
  obtain ⟨c, ip', rfl⟩ := List.exists_cons_of_ne_nil hne
  simp

lemma parseFloat_mk_pos {ip fp : List Char}
    (hip : ∀ c ∈ ip, c.isDigit = true)
    (hfp : ∀ c ∈ fp, c.isDigit = true) (hne : ip ≠ []) :
    parseFloat (String.mk (ip ++ '.' :: fp))
      = some (normNum (digitsVal (ip ++ fp) : Int) fp.length) := by
  have hs : stripSign (ip ++ '.' :: fp) = (false, ip ++ '.' :: fp) := by
    obtain ⟨c, ip', rfl⟩ := List.exists_cons_of_ne_nil hne
    have hc := ne_of_digit (hip c (List.mem_cons_self c ip'))
    simp [stripSign, hc.1, hc.2.1]
  unfold parseFloat
  rw [show (String.mk (ip ++ '.' :: fp)).data = ip ++ '.' :: fp from rfl]
  dsimp only
  rw [hs, parseMantissa_print hip hfp hne]
  simp [parseExpPart]

lemma parseFloat_mk_neg {ip fp : List Char}
    (hip : ∀ c ∈ ip, c.isDigit = true)
    (hfp : ∀ c ∈ fp, c.isDigit = true) (hne : ip ≠ []) :
    parseFloat (String.mk ('-' :: (ip ++ '.' :: fp)))
      = some (normNum (-(digitsVal (ip ++ fp) : Int)) fp.length) := by
  have hs : stripSign ('-' :: (ip ++ '.' :: fp)) = (true, ip ++ '.' :: fp) := by
    simp [stripSign]
  unfold parseFloat
  rw [show (String.mk ('-' :: (ip ++ '.' :: fp))).data = '-' :: (ip ++ '.' :: fp) from rfl]
  dsimp only
  rw [hs, parseMantissa_print hip hfp hne]
  simp [parseExpPart]

lemma normNum_ten (a : Int) : normNum (10 * a) 1 = (a, 0) := by
  unfold normNum
  rw [if_pos (Int.mul_emod_right 10 a)]
  rw [show (10 : Int) * a / 10 = a from Int.mul_ediv_cancel_left a (by norm_num)]
  rfl

lemma normNum_stable {m : Int} {e : Nat} (h : e = 0 ∨ m % 10 ≠ 0) :
    normNum m e = (m, e) := by
  cases e with
  | zero => rfl
  | succ e =>
    rcases h with h | h
    · exact absurd h (by omega)
    · unfold normNum
      rw [if_neg h]

lemma normNum_canonical (m : Int) (e : Nat) :
    (normNum m e).2 = 0 ∨ (normNum m e).1 % 10 ≠ 0 := by
  induction e generalizing m with
  | zero => exact Or.inl rfl
  | succ e ih =>
    unfold normNum
    by_cases h : m % 10 = 0
    · rw [if_pos h]
      exact ih (m / 10)
    · rw [if_neg h]
      exact Or.inr h

lemma printNum_zero (m : Int) :
    printNum m 0
      = String.mk ((if m < 0 then ['-'] else []) ++ natToDigits m.natAbs ++ '.' :: ['0']) := by
  unfold printNum
  have h := natToDigits_ne_nil m.natAbs
  have hlen : ¬ (natToDigits m.natAbs).length < 0 + 1 := by
    cases hn : natToDigits m.natAbs with
    | nil => exact absurd hn h
    | cons c t => simp
  simp [hlen, List.take_length]

lemma printNum_pos (m : Int) (e : Nat) (he : e ≠ 0) :
    ∃ ds : List Char,
      printNum m e
        = String.mk ((if m < 0 then ['-'] else [])
            ++ ds.take (ds.length - e) ++ '.' :: ds.drop (ds.length - e))
      ∧ (∀ c ∈ ds, c.isDigit = true)
      ∧ digitsVal ds = m.natAbs
      ∧ e + 1 ≤ ds.length := by
  refine ⟨if (natToDigits m.natAbs).length < e + 1 then
      List.replicate (e + 1 - (natToDigits m.natAbs).length) '0' ++ natToDigits m.natAbs
    else natToDigits m.natAbs, ?_, ?_, ?_, ?_⟩
  · unfold printNum
    simp [he]
  · split
    · intro c hc
      rcases List.mem_append.mp hc with hc | hc
      · rw [List.eq_of_mem_replicate hc]
        decide
      · exact all_digit_natToDigits _ c hc
    · exact all_digit_natToDigits _
  · split
    · rw [digitsVal_replicate_zero_append]
      exact digitsVal_natToDigits _
    · exact digitsVal_natToDigits _
  · split
    · rename_i hcond
      simp only [List.length_append, List.length_replicate]
      omega
    · rename_i hcond
      omega

lemma parseFloat_printNum {m : Int} {e : Nat} (hc : e = 0 ∨ m % 10 ≠ 0) :
    parseFloat (printNum m e) = some (m, e) := by
  by_cases he : e = 0
  · subst he
    rw [printNum_zero]
    have hip := all_digit_natToDigits m.natAbs
    have hfp : ∀ c ∈ ['0'], c.isDigit = true := by
      intro c hc'
      simp only [List.mem_singleton] at hc'
      subst hc'
      decide
    have hne := natToDigits_ne_nil m.natAbs
    have hval : digitsVal (natToDigits m.natAbs ++ ['0'])
        = 10 * m.natAbs := by
      rw [digitsVal_snoc, digitsVal_natToDigits]
      have h0 : digVal '0' = 0 := by decide
      rw [h0]
      omega
    by_cases hm : m < 0
    · rw [if_pos hm]
      rw [show ['-'] ++ natToDigits m.natAbs ++ '.' :: ['0']
            = '-' :: (natToDigits m.natAbs ++ '.' :: ['0']) from rfl]
      rw [parseFloat_mk_neg hip hfp hne]
      rw [hval]
      have hcast : ((10 * m.natAbs : Nat) : Int) = 10 * (m.natAbs : Int) := by push_cast; ring
      rw [hcast, ← Int.mul_neg]
      simp only [List.length_singleton]
      rw [normNum_ten]
      have habs : ((m.natAbs : Int)) = -m := Int.ofNat_natAbs_of_nonpos (by omega)
      rw [habs]
      simp
    · rw [if_neg hm]
      rw [List.nil_append]
      rw [parseFloat_mk_pos hip hfp hne]
      rw [hval]
      have hcast : ((10 * m.natAbs : Nat) : Int) = 10 * (m.natAbs : Int) := by push_cast; ring
      rw [hcast]
      simp only [List.length_singleton]
      rw [normNum_ten]
      have habs : ((m.natAbs : Int)) = m := Int.natAbs_of_nonneg (by omega)
      rw [habs]
  · obtain ⟨ds, hprint, hall, hval, hlen⟩ := printNum_pos m e he
    rw [hprint]
    have hip : ∀ c ∈ ds.take (ds.length - e), c.isDigit = true :=
      fun c hc => hall c (List.take_subset _ _ hc)
    have hfp : ∀ c ∈ ds.drop (ds.length - e), c.isDigit = true :=
      fun c hc => hall c (List.drop_subset _ _ hc)
    have hne : ds.take (ds.length - e) ≠ [] := by
      have : (ds.take (ds.length - e)).length = ds.length - e := by
        rw [List.length_take]
        omega
      intro hnil
      rw [hnil] at this
      simp at this
      omega
    have happ : ds.take (ds.length - e) ++ ds.drop (ds.length - e) = ds :=
      List.take_append_drop _ _
    have hflen : (ds.drop (ds.length - e)).length = e := by
      rw [List.length_drop]
      omega
    have hm10 : m % 10 ≠ 0 := hc.resolve_left he
    by_cases hm : m < 0
    · rw [if_pos hm]
      rw [show ['-'] ++ ds.take (ds.length - e) ++ '.' :: ds.drop (ds.length - e)
            = '-' :: (ds.take (ds.length - e) ++ '.' :: ds.drop (ds.length - e)) from rfl]
      rw [parseFloat_mk_neg hip hfp hne]
      rw [happ, hval, hflen]
      have habs : ((m.natAbs : Int)) = -m := Int.ofNat_natAbs_of_nonpos (by omega)
      rw [habs, neg_neg, normNum_stable (Or.inr hm10)]
    · rw [if_neg hm]
      rw [List.nil_append]
      rw [parseFloat_mk_pos hip hfp hne]
      rw [happ, hval, hflen]
      have habs : ((m.natAbs : Int)) = m := Int.natAbs_of_nonneg (by omega)
      rw [habs, normNum_stable (Or.inr hm10)]

lemma parseFloat_canonical {s : String} {m : Int} {e : Nat}
    (h : parseFloat s = some (m, e)) : e = 0 ∨ m % 10 ≠ 0 := by
  unfold parseFloat at h
  rcases hss : stripSign s.data with ⟨neg, cs⟩
  rw [hss] at h
  dsimp only at h
  cases hpm : parseMantissa cs with
  | none =>
    rw [hpm] at h
    simp at h
  | some t =>
    obtain ⟨mv, ev, rest⟩ := t
    rw [hpm] at h
    dsimp only at h
    cases hep : parseExpPart rest with
    | none =>
      rw [hep] at h
      simp at h
    | some k =>
      rw [hep] at h
      dsimp only at h
      by_cases hk : k ≥ 0
      · rw [if_pos hk] at h
        have h2 := Option.some.inj h
        have h3 := normNum_canonical
          ((if neg = true then -(mv : Int) else (mv : Int)) * 10 ^ k.toNat) ev
        rw [h2] at h3
        simpa using h3
      · rw [if_neg hk] at h
        have h2 := Option.some.inj h
        have h3 := normNum_canonical
          (if neg = true then -(mv : Int) else (mv : Int)) (ev + (-k).toNat)
        rw [h2] at h3
        simpa using h3

lemma printNum_chars (m : Int) (e : Nat) :
    ∀ c ∈ (printNum m e).data, c.isDigit = true ∨ c = '-' ∨ c = '.' := by
  by_cases he : e = 0
  · subst he
    rw [printNum_zero]
    intro c hc
    rw [show (String.mk ((if m < 0 then ['-'] else [])
        ++ natToDigits m.natAbs ++ '.' :: ['0'])).data
        = (if m < 0 then ['-'] else []) ++ natToDigits m.natAbs ++ '.' :: ['0']
      from rfl] at hc
    rcases List.mem_append.mp hc with hc | hc
    · rcases List.mem_append.mp hc with hc | hc
      · split at hc
        · simp only [List.mem_singleton] at hc
          exact Or.inr (Or.inl hc)
        · cases hc
      · exact Or.inl (all_digit_natToDigits _ c hc)
    · rcases List.mem_cons.mp hc with hc | hc
      · exact Or.inr (Or.inr hc)
      · simp only [List.mem_singleton] at hc
        subst hc
        exact Or.inl (by decide)
  · obtain ⟨ds, hprint, hall, _, _⟩ := printNum_pos m e he
    rw [hprint]
    intro c hc
    rw [show (String.mk ((if m < 0 then ['-'] else [])
        ++ ds.take (ds.length - e) ++ '.' :: ds.drop (ds.length - e))).data
        = (if m < 0 then ['-'] else [])
            ++ ds.take (ds.length - e) ++ '.' :: ds.drop (ds.length - e)
      from rfl] at hc
    rcases List.mem_append.mp hc with hc | hc
    · rcases List.mem_append.mp hc with hc | hc
      · split at hc
        · simp only [List.mem_singleton] at hc
          exact Or.inr (Or.inl hc)
        · cases hc
      · exact Or.inl (hall c (List.take_subset _ _ hc))
    · rcases List.mem_cons.mp hc with hc | hc
      · exact Or.inr (Or.inr hc)
      · exact Or.inl (hall c (List.drop_subset _ _ hc))

lemma cleanNumStr_printNum (m : Int) (e : Nat) :
    cleanNumStr (printNum m e) = printNum m e := by
  have hch := printNum_chars m e
  have hws : ∀ c ∈ (printNum m e).data, c.isWhitespace = false := by
    intro c hc
    rcases hch c hc with h | h | h
    · exact not_ws_of_digit h
    · subst h; decide
    · subst h; decide
  unfold cleanNumStr
  have h1 : pyStrip (printNum m e) = printNum m e := by
    unfold pyStrip
    rw [stripChars_of_no_ws hws]
  rw [h1]
  have h2 : ∀ c ∈ (printNum m e).data, c ≠ ' ' := by
    intro c hc
    rcases hch c hc with h | h | h
    · exact (ne_of_digit h).2.2.1
    · subst h; decide
    · subst h; decide
  have h3 : ∀ c ∈ (printNum m e).data, c ≠ ',' := by
    intro c hc
    rcases hch c hc with h | h | h
    · exact (ne_of_digit h).2.2.2
    · subst h; decide
    · subst h; decide
  have hfs : (printNum m e).data.filter (fun c => c ≠ ' ') = (printNum m e).data :=
    List.filter_eq_self.mpr (fun a ha => by simpa using h2 a ha)
  have hfc : (printNum m e).data.filter (fun c => c ≠ ',') = (printNum m e).data :=
    List.filter_eq_self.mpr (fun a ha => by simpa using h3 a ha)
  rw [hfs, hfc]

lemma coerceCell_nan : coerceCell Cell.nan = Cell.nan := by decide

lemma coerceCell_num_canonical {m : Int} {e : Nat} (hc : e = 0 ∨ m % 10 ≠ 0) :
    coerceCell (Cell.num m e) = Cell.num m e := by
  unfold coerceCell
  rw [show cellStr (Cell.num m e) = printNum m e from rfl]
  rw [cleanNumStr_printNum]
  unfold toNumericCell
  rw [parseFloat_printNum hc]

lemma coerceCell_idem (c : Cell) : coerceCell (coerceCell c) = coerceCell c := by
  cases h : parseFloat (cleanNumStr (cellStr c)) with
  | none =>
    have hc : coerceCell c = Cell.nan := by
      unfold coerceCell toNumericCell
      rw [h]
    rw [hc]
    exact coerceCell_nan
  | some p =>
    obtain ⟨m, e⟩ := p
    have hcan := parseFloat_canonical h
    have hc : coerceCell c = Cell.num m e := by
      unfold coerceCell toNumericCell
      rw [h]
    rw [hc]
    exact coerceCell_num_canonical hcan

lemma cleanStrCell_idem (c : Cell) :
    cleanStrCell (cleanStrCell c) = cleanStrCell c := by
  unfold cleanStrCell
  rw [show cellStr (Cell.str (pyStrip (cellStr c))) = pyStrip (cellStr c) from rfl]
  rw [pyStrip_idem]

lemma map_idem_of_idem {f : Cell → Cell} (hf : ∀ c, f (f c) = f c) (l : List Cell) :
    (l.map f).map f = l.map f := by
  induction l with
  | nil => rfl
  | cons c cs ih => simp only [List.map_cons, hf c, ih]

lemma cleanColPair_idem {p : String × List Cell}
    (hstab : cleanColumn (cleanColumn p.1) = cleanColumn p.1) :
    cleanColPair (cleanColPair p) = cleanColPair p := by
  by_cases h1 : cleanColumn p.1 ∈ string_cols
  · have hin : cleanColPair p = (cleanColumn p.1, p.2.map cleanStrCell) := by
      unfold cleanColPair
      dsimp only
      rw [if_pos h1]
    rw [hin]
    unfold cleanColPair
    dsimp only
    rw [hstab, if_pos h1, map_idem_of_idem cleanStrCell_idem]
  by_cases h2 : cleanColumn p.1 ∈ numeric_cols
  · have hin : cleanColPair p = (cleanColumn p.1, p.2.map coerceCell) := by
      unfold cleanColPair
      dsimp only
      rw [if_neg h1, if_pos h2]
    rw [hin]
    unfold cleanColPair
    dsimp only
    rw [hstab, if_neg h1, if_pos h2, map_idem_of_idem coerceCell_idem]
  · have hin : cleanColPair p = (cleanColumn p.1, p.2) := by
      unfold cleanColPair
      dsimp only
      rw [if_neg h1, if_neg h2]
    rw [hin]
    unfold cleanColPair
    dsimp only
    rw [hstab, if_neg h1, if_neg h2]

lemma map_cleanColPair_idem {L : List (String × List Cell)}
    (h : ∀ p ∈ L, cleanColumn (cleanColumn p.1) = cleanColumn p.1) :
    (L.map cleanColPair).map cleanColPair = L.map cleanColPair := by
  induction L with
  | nil => rfl
  | cons p ps ih =>
    simp only [List.map_cons]
    rw [cleanColPair_idem (h p (List.mem_cons_self p ps)),
      ih (fun q hq => h q (List.mem_cons_of_mem _ hq))]

/-- Counterexample to C5 as stated: the column name "A\t\uFEFF" survives
the first strip (its trailing character is the BOM, which `str.strip`
does not remove), cleans to "a\t" on the first pass, and only the second
pass strips the now-exposed trailing tab — so cleaning twice differs from
cleaning once. -/
theorem clean_lga_data_not_idempotent :
    clean_lga_data (clean_lga_data ⟨[("A\t\uFEFF", [])]⟩)
      ≠ clean_lga_data ⟨[("A\t\uFEFF", [])]⟩ := by decide

/-- C5 (amended): `clean_lga_data` is idempotent on every table whose
column names are stable under a second name-cleaning pass (cell values are
always stable; only a column name that re-exposes strippable or removable
characters after one pass — e.g. a BOM hiding a trailing tab — breaks
idempotence). -/
theorem clean_lga_data_idempotent_of_stable (t : Table)
    (h : ∀ p ∈ t.cols, cleanColumn (cleanColumn p.1) = cleanColumn p.1) :
    clean_lga_data (clean_lga_data t) = clean_lga_data t := by
  unfold clean_lga_data
  refine congrArg Table.mk ?_
  show (t.cols.map cleanColPair).map cleanColPair = t.cols.map cleanColPair
  exact map_cleanColPair_idem h

/-- Witness for `clean_lga_data_idempotent_of_stable` at a concrete table
with a parenthesised numeric column and a string column. -/
theorem clean_lga_data_idempotent_witness :
    clean_lga_data (clean_lga_data
        ⟨[("Area (Km)", [Cell.str " 12,345.6 "]), ("LGA", [Cell.str " Abuja "])]⟩)
      = clean_lga_data
        ⟨[("Area (Km)", [Cell.str " 12,345.6 "]), ("LGA", [Cell.str " Abuja "])]⟩ :=
  clean_lga_data_idempotent_of_stable
    ⟨[("Area (Km)", [Cell.str " 12,345.6 "]), ("LGA", [Cell.str " Abuja "])]⟩ (by decide)

/-!
Embedding of the credential store and its operations
(`hash_password`, `authenticate_user`, `init_database` in
src/app/population_density.py and `setup_database` in
src/database/setup_postgres.py). The `users` table is modelled as the
list of its rows in insertion order; timestamps are abstract instants.
-/

/-- One row of the `users` table. The serial primary key is managed by
the database layer and omitted. -/
structure User where
  username : String
  password_hash : String
  is_admin : Bool
  created_at : Nat
  last_login : Option Nat
deriving DecidableEq, Repr

/-- Model of `hash_password` (a SHA-256 hex digest). Every claim below
only compares digests for equality and never inverts them, so the digest
function is modelled as an injective tagged copy of the password. -/
def hash_password (password : String) : String := "sha256$" ++ password

/-- Model of `db.query(User).filter(User.username == username).first()`:
the first row with the given username (unique by constraint). -/
def findUser (store : List User) (username : String) : Option User :=
  store.find? (fun u => u.username = username)

/-- Model of the ORM mutation `user.last_login = now; db.commit()`:
update the first row with the given username. -/
def updateLastLogin : List User → String → Nat → List User
  | [], _, _ => []
  | u :: rest, name, now =>
    if u.username = name then { u with last_login := some now } :: rest
    else u :: updateLastLogin rest name now

/-- Model of `authenticate_user`: look up the row for `username`; if it
exists and its stored hash equals the hash of the supplied password, set
its `last_login` to the current instant and return `(True, is_admin)`
with the updated store; otherwise return `(False, False)` and leave the
store untouched. -/
def authenticate_user (store : List User) (username password : String) (now : Nat) :
    (Bool × Bool) × List User :=
  match findUser store username with
  | some u =>
    if u.password_hash = hash_password password then
      ((true, u.is_admin), updateLastLogin store username now)
    else ((false, false), store)
  | none => ((false, false), store)

/-- Model of `init_database`: create the schema if absent (implicit in
the store model) and insert the default admin row when no row with
username "admin" exists (`db.add` appends). -/
def init_database (store : List User) (now : Nat) : List User :=
  match findUser store "admin" with
  | some _ => store
  | none =>
    store ++ [{ username := "admin", password_hash := hash_password "admin123",
                is_admin := true, created_at := now, last_login := none }]

/-- Model of `setup_database` from src/database/setup_postgres.py, whose
bootstrap logic is the same as `init_database`. -/
def setup_database (store : List User) (now : Nat) : List User :=
  match findUser store "admin" with
  | some _ => store
  | none =>
    store ++ [{ username := "admin", password_hash := hash_password "admin123",
                is_admin := true, created_at := now, last_login := none }]

lemma findUser_updateLastLogin (store : List User) (name : String) (now : Nat) :
    findUser (updateLastLogin store name now) name
      = (findUser store name).map (fun u => { u with last_login := some now }) := by
  induction store with
  | nil => rfl
  | cons u rest ih =>
    by_cases h : u.username = name
    · unfold updateLastLogin findUser
      rw [if_pos h]
      rw [List.find?_cons_of_pos _ (by simpa using h)]
      rw [List.find?_cons_of_pos _ (by simpa using h)]
      rfl
    · unfold updateLastLogin findUser
      rw [if_neg h]
      rw [List.find?_cons_of_neg _ (by simpa using h)]
      rw [List.find?_cons_of_neg _ (by simpa using h)]
      exact ih

/-- C6: if the username resolves to a stored row and the supplied
password hashes to the stored hash, `authenticate_user` returns success
with the stored admin flag and updates that row's last-login instant; if
the row exists but the hash differs, it returns a rejection and the store
is unchanged. -/
theorem authenticate_user_correct (store : List User)
    (username password : String) (now : Nat) :
    (∀ u, findUser store username = some u →
      u.password_hash = hash_password password →
        authenticate_user store username password now
          = ((true, u.is_admin), updateLastLogin store username now)
        ∧ findUser (updateLastLogin store username now) username
            = some { u with last_login := some now })
    ∧ (∀ u, findUser store username = some u →
      u.password_hash ≠ hash_password password →
        authenticate_user store username password now = ((false, false), store)) := by
  constructor
  · intro u hu hpw
    constructor
    · unfold authenticate_user
      rw [hu]
      dsimp only
      rw [if_pos hpw]
    · rw [findUser_updateLastLogin, hu]
      rfl
  · intro u hu hpw
    unfold authenticate_user
    rw [hu]
    dsimp only
    rw [if_neg hpw]

/-- Witness for `authenticate_user_correct` on a one-row store. -/
theorem authenticate_user_correct_witness :
    authenticate_user [⟨"admin", hash_password "admin123", true, 0, none⟩]
        "admin" "admin123" 5
      = ((true, true),
          updateLastLogin [⟨"admin", hash_password "admin123", true, 0, none⟩] "admin" 5)
    ∧ authenticate_user [⟨"admin", hash_password "admin123", true, 0, none⟩]
        "admin" "nope" 5
      = ((false, false), [⟨"admin", hash_password "admin123", true, 0, none⟩]) := by
  constructor
  · exact ((authenticate_user_correct
      [⟨"admin", hash_password "admin123", true, 0, none⟩] "admin" "admin123" 5).1
      ⟨"admin", hash_password "admin123", true, 0, none⟩ (by decide) (by decide)).1
  · exact (authenticate_user_correct
      [⟨"admin", hash_password "admin123", true, 0, none⟩] "admin" "nope" 5).2
      ⟨"admin", hash_password "admin123", true, 0, none⟩ (by decide) (by decide)

/-- C7: an unknown username and a known username with a wrong password
produce the same observable return value `(False, False)` from
`authenticate_user`, so the response does not reveal whether the
username exists. -/
theorem authenticate_user_uniform_rejection
    (s1 : List User) (u1 p1 : String) (n1 : Nat)
    (s2 : List User) (u2 p2 : String) (n2 : Nat) (v : User)
    (h1 : findUser s1 u1 = none)
    (h2 : findUser s2 u2 = some v)
    (hw : v.password_hash ≠ hash_password p2) :
    (authenticate_user s1 u1 p1 n1).1 = (authenticate_user s2 u2 p2 n2).1
    ∧ (authenticate_user s1 u1 p1 n1).1 = (false, false) := by
  unfold authenticate_user
  rw [h1, h2]
  dsimp only
  rw [if_neg hw]
  exact ⟨rfl, rfl⟩

/-- Witness for `authenticate_user_uniform_rejection`: empty store with
an unknown name against a one-row store with a wrong password. -/
theorem authenticate_user_uniform_rejection_witness :
    (authenticate_user [] "ghost" "pw" 0).1
      = (authenticate_user [⟨"admin", hash_password "admin123", true, 0, none⟩]
          "admin" "bad" 1).1
    ∧ (authenticate_user [] "ghost" "pw" 0).1 = (false, false) :=
  authenticate_user_uniform_rejection [] "ghost" "pw" 0
    [⟨"admin", hash_password "admin123", true, 0, none⟩] "admin" "bad" 1
    ⟨"admin", hash_password "admin123", true, 0, none⟩
    (by decide) (by decide) (by decide)

/-- C8: bootstrapping an empty store (via `init_database` or
`setup_database`) yields exactly one user named "admin", that user has
the admin flag set, and a second bootstrap run leaves the store
unchanged (no duplicate). -/
theorem bootstrap_default_admin (now now2 : Nat) :
    ((init_database [] now).filter (fun u => u.username = "admin")).length = 1
    ∧ (∀ u ∈ init_database [] now, u.username = "admin" → u.is_admin = true)
    ∧ init_database (init_database [] now) now2 = init_database [] now
    ∧ ((setup_database [] now).filter (fun u => u.username = "admin")).length = 1
    ∧ (∀ u ∈ setup_database [] now, u.username = "admin" → u.is_admin = true)
    ∧ setup_database (setup_database [] now) now2 = setup_database [] now := by
  have h1 : init_database [] now
      = [{ username := "admin", password_hash := hash_password "admin123",
           is_admin := true, created_at := now, last_login := none }] := rfl
  have h2 : setup_database [] now
      = [{ username := "admin", password_hash := hash_password "admin123",
           is_admin := true, created_at := now, last_login := none }] := rfl
  refine ⟨?_, ?_, rfl, ?_, ?_, rfl⟩
  · rw [h1]
    rfl
  · rw [h1]
    intro u hu _
    simp only [List.mem_singleton] at hu
    rw [hu]
  · rw [h2]
    rfl
  · rw [h2]
    intro u hu _
    simp only [List.mem_singleton] at hu
    rw [hu]

/-- Witness for `bootstrap_default_admin` at concrete instants. -/
theorem bootstrap_default_admin_witness :
    ({ username := "admin", password_hash := hash_password "admin123",
       is_admin := true, created_at := 0, last_login := none } : User).is_admin = true
    ∧ init_database (init_database [] 0) 1 = init_database [] 0 := by
  constructor
  · exact (bootstrap_default_admin 0 1).2.1
      { username := "admin", password_hash := hash_password "admin123",
        is_admin := true, created_at := 0, last_login := none }
      (by decide) (by decide)
  · exact (bootstrap_default_admin 0 1).2.2.1

/-!
Embedding of `validate_csv_data`. An uploaded CSV arrives as a `Table`
whose coordinate columns hold numbers (or NaN, which pandas `.min()` and
`.max()` skip; comparisons against an all-NaN result are false).
-/

/-- Model of `len(df)`: the row count (0 for a frame with no columns). -/
def numRows (t : Table) : Nat :=
  match t.cols with
  | [] => 0
  | (_, vs) :: _ => vs.length

/-- Model of `df.empty`: some axis has length 0. -/
def tableEmpty (t : Table) : Bool := t.cols.isEmpty || decide (numRows t = 0)

/-- Model of `col in df.columns`. -/
def hasCol (t : Table) (n : String) : Bool := t.cols.any (fun p => p.1 = n)

/-- Model of `df[col]` (first column with the name; `[]` when absent,
unreachable under the source's membership guards). -/
def getCol (t : Table) (n : String) : List Cell :=
  ((t.cols.find? (fun p => p.1 = n)).map Prod.snd).getD []

/-- Numeric value of a cell as an exact decimal `(m, e)` standing for
`m / 10 ^ e` (NaN and strings have none; pandas `.min()`/`.max()` skip
NaN). -/
def numValD : Cell → Option (Int × Nat)
  | Cell.num m e => some (m, e)
  | _ => none

/-- Value order on exact decimals: `m1 / 10^e1 ≤ m2 / 10^e2`, with the
positive denominators cleared. -/
def decLe (a b : Int × Nat) : Bool := decide (a.1 * 10 ^ b.2 ≤ b.1 * 10 ^ a.2)

/-- Model of `series.min()` over the numeric values (NaN skipped; `none`
when no numeric value exists, i.e. a NaN result). -/
def colMin (vs : List Cell) : Option (Int × Nat) :=
  match vs.filterMap numValD with
  | [] => none
  | x :: xs => some (xs.foldl (fun a b => if decLe a b then a else b) x)

/-- Model of `series.max()`, as for `colMin`. -/
def colMax (vs : List Cell) : Option (Int × Nat) :=
  match vs.filterMap numValD with
  | [] => none
  | x :: xs => some (xs.foldl (fun a b => if decLe b a then a else b) x)

/-- Check `lo ≤ m / 10^e ≤ hi` for integer bounds, with the positive
denominator cleared. -/
def inBounds (lo hi : Int) (a : Int × Nat) : Bool :=
  decide (lo * 10 ^ a.2 ≤ a.1) && decide (a.1 ≤ hi * 10 ^ a.2)

/-- Model of `lo <= col.min() <= hi and lo <= col.max() <= hi`; a NaN
min or max compares false, failing the check. -/
def rangeOk (lo hi : Int) (vs : List Cell) : Bool :=
  match colMin vs, colMax vs with
  | some mn, some mx => inBounds lo hi mn && inBounds lo hi mx
  | _, _ => false

/-- Model of `validate_csv_data`: the checks in source order, returning
the first failure's message, or success. -/
def validate_csv_data (t : Table)
    (required_cols : List String := ["latitude", "longitude"]) : Bool × String :=
  if tableEmpty t then (false, "CSV file is empty")
  else
    let missing := required_cols.filter (fun c => !(hasCol t c))
    if missing ≠ [] then
      (false, "Missing required columns: " ++ String.intercalate ", " missing)
    else if hasCol t "latitude" && !(rangeOk (-90) 90 (getCol t "latitude")) then
      (false, "Latitude values must be between -90 and 90")
    else if hasCol t "longitude" && !(rangeOk (-180) 180 (getCol t "longitude")) then
      (false, "Longitude values must be between -180 and 180")
    else if numRows t > 50000 then
      (false, "File too large. Maximum 50,000 records allowed.")
    else (true, "Data validation successful")

lemma missing_nil_iff (t : Table) :
    (["latitude", "longitude"].filter (fun c => !(hasCol t c))) = []
      ↔ hasCol t "latitude" = true ∧ hasCol t "longitude" = true := by
  cases h1 : hasCol t "latitude" <;> cases h2 : hasCol t "longitude" <;>
    simp [List.filter_cons, h1, h2]

/-- C9: `validate_csv_data` succeeds exactly when the frame is non-empty,
has latitude and longitude columns, the latitude minimum and maximum lie
in [-90, 90], the longitude minimum and maximum lie in [-180, 180], and
there are at most 50,000 rows; each failure reports the message of the
first violated condition, in source order. -/
theorem validate_csv_data_spec (t : Table) :
    ((validate_csv_data t).1 = true ↔
      (tableEmpty t = false
        ∧ hasCol t "latitude" = true ∧ hasCol t "longitude" = true
        ∧ rangeOk (-90) 90 (getCol t "latitude") = true
        ∧ rangeOk (-180) 180 (getCol t "longitude") = true
        ∧ numRows t ≤ 50000))
    ∧ ((validate_csv_data t).1 = true →
        (validate_csv_data t).2 = "Data validation successful")
    ∧ (tableEmpty t = true → (validate_csv_data t).2 = "CSV file is empty")
    ∧ (tableEmpty t = false →
        (["latitude", "longitude"].filter (fun c => !(hasCol t c))) ≠ [] →
        (validate_csv_data t).2
          = "Missing required columns: "
            ++ String.intercalate ", "
              (["latitude", "longitude"].filter (fun c => !(hasCol t c))))
    ∧ (tableEmpty t = false → hasCol t "latitude" = true → hasCol t "longitude" = true →
        rangeOk (-90) 90 (getCol t "latitude") = false →
        (validate_csv_data t).2 = "Latitude values must be between -90 and 90")
    ∧ (tableEmpty t = false → hasCol t "latitude" = true → hasCol t "longitude" = true →
        rangeOk (-90) 90 (getCol t "latitude") = true →
        rangeOk (-180) 180 (getCol t "longitude") = false →
        (validate_csv_data t).2 = "Longitude values must be between -180 and 180")
    ∧ (tableEmpty t = false → hasCol t "latitude" = true → hasCol t "longitude" = true →
        rangeOk (-90) 90 (getCol t "latitude") = true →
        rangeOk (-180) 180 (getCol t "longitude") = true →
        50000 < numRows t →
        (validate_csv_data t).2 = "File too large. Maximum 50,000 records allowed.") := by
  cases h0 : tableEmpty t with
  | true => simp [validate_csv_data, h0]
  | false =>
    cases hlat : hasCol t "latitude" with
    | false =>
      have hm : (["latitude", "longitude"].filter (fun c => !(hasCol t c))) ≠ [] := by
        intro hnil
        simp [List.filter_cons, hlat] at hnil
      simp [validate_csv_data, h0, hlat, hm]
    | true =>
      cases hlon : hasCol t "longitude" with
      | false =>
        have hm : (["latitude", "longitude"].filter (fun c => !(hasCol t c))) ≠ [] := by
          intro hnil
          exact absurd ((missing_nil_iff t).mp hnil).2 (by simp [hlon])
        simp [validate_csv_data, h0, hlat, hlon, hm]
      | true =>
        have hm : (["latitude", "longitude"].filter (fun c => !(hasCol t c))) = [] :=
          (missing_nil_iff t).mpr ⟨hlat, hlon⟩
        cases hr1 : rangeOk (-90) 90 (getCol t "latitude") with
        | false => simp [validate_csv_data, h0, hlat, hlon, hm, hr1]
        | true =>
          cases hr2 : rangeOk (-180) 180 (getCol t "longitude") with
          | false => simp [validate_csv_data, h0, hlat, hlon, hm, hr1, hr2]
          | true =>
            by_cases hn : numRows t ≤ 50000
            · have hle : ¬ (numRows t > 50000) := by omega
              simp [validate_csv_data, h0, hlat, hlon, hm, hr1, hr2, hn, hle]
            · have hgt : numRows t > 50000 := by omega
              simp [validate_csv_data, h0, hlat, hlon, hm, hr1, hr2, hgt, hn]

/-- Witness for `validate_csv_data_spec`: a valid one-row upload and the
empty upload. -/
theorem validate_csv_data_spec_witness :
    (validate_csv_data
        ⟨[("latitude", [Cell.num 5 0]), ("longitude", [Cell.num 10 0])]⟩).1 = true
    ∧ (validate_csv_data ⟨[]⟩).2 = "CSV file is empty" := by
  constructor
  · exact (validate_csv_data_spec
      ⟨[("latitude", [Cell.num 5 0]), ("longitude", [Cell.num 10 0])]⟩).1.mpr
      (by refine ⟨by decide, by decide, by decide, by decide, by decide, by decide⟩)
  · exact (validate_csv_data_spec ⟨[]⟩).2.2.1 (by decide)

end PopDensity
